import Mathlib

/-!
# Verification of the hamilton `Driver` orchestration layer

Shallow embedding of `src/hamilton/driver.py` (the `Driver` class) together
with spec-modelled stand-ins for the parts of the repository that are not in
`src/` (`graph.py`, `node.py`, `base.py`): the `FunctionGraph` operations
`combine_config_and_inputs`, `get_upstream_nodes`, `execute` and `has_cycles`,
and the `Node` data model.

Python dynamic values are modelled by the closed `Value` type, with
`Value.none` playing the role of Python `None`; type descriptors are opaque
strings; dictionaries are association lists looked up by `alookup`.
-/

namespace Hamilton

/-- A dynamic (Python-style) runtime value.  `Value.none` models Python
`None`. -/
inductive Value where
  | none
  | int (n : Int)
  | str (s : String)
  | bool (b : Bool)
deriving DecidableEq, Repr

/-- Render a value into an error message (stand-in for Python string
interpolation of the value). -/
def Value.render : Value → String
  | Value.none => "None"
  | Value.int n => toString n
  | Value.str s => s
  | Value.bool b => toString b

/-- Type descriptors are opaque tags: the adapter alone interprets them. -/
abbrev Ty := String

/-- `node.DependencyType` from `node.py` (not in `src/`): a parameter is
OPTIONAL iff the function declares a default for it. -/
inductive DependencyType where
  | REQUIRED
  | OPTIONAL
deriving DecidableEq, Repr

/-- Association-list lookup, modelling Python dict lookup (`d[k]` /
`k in d`). -/
def alookup {α : Type} (m : List (String × α)) (k : String) : Option α :=
  match m with
  | [] => Option.none
  | (a, b) :: rest => if a = k then some b else alookup rest k

/-- Lookup of a parameter entry `(type, dependencyType)` by parameter name,
modelling `node.input_types[name]`. -/
def lookupParam (ps : List (String × Ty × DependencyType)) (k : String) :
    Option (Ty × DependencyType) :=
  (alookup ps k)

/-- The per-node data that `Driver` reads off a dependent node: its name,
declared type and parameter table (`input_types`). -/
structure NodeCore where
  name : String
  type : Ty
  inputTypes : List (String × Ty × DependencyType)

/-- A graph vertex as seen by `Driver`: core data, the derived back-references
`depended_on_by`, and the computation function. -/
structure Node extends NodeCore where
  dependedOnBy : List NodeCore
  compute : List (String × Value) → Value

/-- `Driver._node_is_required_by_anything` (driver.py lines 62-76): walk
`depended_on_by` and return true as soon as one dependent declares the
parameter named after this node as REQUIRED, otherwise false.  (Python would
raise `KeyError` on a dependent lacking the entry; the model treats such a
dependent as not requiring, so theorems carry a well-formedness hypothesis.) -/
def nodeIsRequiredByAnything (n : Node) : Bool :=
  n.dependedOnBy.any fun d =>
    match lookupParam d.inputTypes n.name with
    | some (_, DependencyType.REQUIRED) => true
    | _ => false

/-- The error message of driver.py lines 93-94 for a missing required input:
names the vertex and the list of its dependents. -/
def missingMsg (un : Node) : String :=
  "Error: Required input " ++ un.name ++ " not provided for nodes: [" ++
    String.intercalate ", " (un.dependedOnBy.map NodeCore.name) ++ "]."

/-- The error message of driver.py lines 97-98 for a type mismatch: names the
vertex, its declared type and the offending value. -/
def typeMsg (un : Node) (v : Value) : String :=
  "Error: Type requirement mismatch. Expected " ++ un.name ++ ":" ++
    un.type ++ " got " ++ v.render ++ " instead."

/-- Modelled from the spec: `FunctionGraph.combine_config_and_inputs`
(graph.py is not in `src/`).  Merges the static config with the runtime
inputs; per the spec contract, a key present in both is rejected with an
error rather than silently choosing one side. -/
def combineConfigAndInputs (config inputs : List (String × Value)) :
    Except String (List (String × Value)) :=
  let dups := (config.map Prod.fst).filter fun k => (alookup inputs k).isSome
  if dups.isEmpty then
    Except.ok (config ++ inputs)
  else
    Except.error ("The following keys are present in both config and inputs: ["
      ++ String.intercalate ", " dups ++ "]")

/-- The violations one user node contributes (driver.py lines 91-98): a
missing-required-input message when its name is absent from the combined
mapping and some dependent requires it; a type-mismatch message when present,
not None, and rejected by the adapter check. -/
def nodeErrors (check : Ty → Value → Bool) (allInputs : List (String × Value))
    (un : Node) : List String :=
  match alookup allInputs un.name with
  | Option.none =>
    if nodeIsRequiredByAnything un then [missingMsg un] else []
  | some v =>
    if v ≠ Value.none ∧ check un.type v = false then [typeMsg un v] else []

/-- The error-collection loop of driver.py lines 89-98: every user node is
visited and its violations appended (no early exit). -/
def collectErrors (check : Ty → Value → Bool)
    (allInputs : List (String × Value)) (userNodes : List Node) : List String :=
  userNodes.foldl (fun errs un => errs ++ nodeErrors check allInputs un) []

/-- `errors.sort()` of driver.py line 100: lexicographic sort of the
collected messages. -/
def sortErrors (errs : List String) : List String :=
  errs.mergeSort fun a b => decide (a ≤ b)

/-- The combined message of driver.py line 101: a count header followed by
one indented line per violation. -/
def errorString (errs : List String) : String :=
  toString errs.length ++ " errors encountered:\n  " ++
    String.intercalate "\n  " errs

/-- `Driver.validate_inputs` (driver.py lines 78-102): combine config and
inputs (clash aborts), collect every violation over the user nodes, and if
any, sort them and raise one combined error. -/
def validateInputs (check : Ty → Value → Bool)
    (config : List (String × Value)) (userNodes : List Node)
    (inputs : List (String × Value)) : Except String Unit :=
  match combineConfigAndInputs config inputs with
  | Except.error e => Except.error e
  | Except.ok allInputs =>
    let errors := collectErrors check allInputs userNodes
    if errors.isEmpty then Except.ok ()
    else Except.error (errorString (sortErrors errors))

/-- A computation-unit declaration, per the spec registration contract:
output name, output type, ordered typed parameters with optionality, and the
pure computation function. -/
structure NodeDecl where
  name : String
  type : Ty
  params : List (String × Ty × DependencyType)
  compute : List (String × Value) → Value

/-- Modelled from the spec: the `FunctionGraph` of graph.py (not in `src/`):
the vertex set and the static configuration, immutable after construction. -/
structure FunctionGraph where
  nodes : List Node
  config : List (String × Value)

/-- Core projection of a declaration, used to build `depended_on_by`
back-references. -/
def NodeDecl.core (d : NodeDecl) : NodeCore :=
  { name := d.name, type := d.type, inputTypes := d.params }

/-- Modelled from the spec: `FunctionGraph` construction (graph.py is not in
`src/`): build a vertex from each declaration with `depended_on_by` derived
as every declaration whose parameter list names it; reject duplicate output
names with a construction error. -/
def mkFunctionGraph (decls : List NodeDecl) (config : List (String × Value)) :
    Except String FunctionGraph :=
  if (decls.map NodeDecl.name).Nodup then
    Except.ok
      { nodes := decls.map fun d =>
          { name := d.name, type := d.type, inputTypes := d.params,
            compute := d.compute,
            dependedOnBy :=
              (decls.filter fun e => (lookupParam e.params d.name).isSome).map
                NodeDecl.core }
        config := config }
  else
    Except.error "Error: duplicate output name among computation units."

/-- Find the vertex producing a given name, if any; a name with no vertex is
a leaf input. -/
def nodeByName (g : FunctionGraph) (s : String) : Option Node :=
  g.nodes.find? fun n => n.name = s

/-- The parameter names a vertex declares as REQUIRED. -/
def requiredParamNames (n : Node) : List String :=
  (n.inputTypes.filter fun p => p.2.2 = DependencyType.REQUIRED).map Prod.fst

/-- Append an element unless already present (set-flavoured accumulation). -/
def insertNew (a : List String) (p : String) : List String :=
  if a.contains p then a else a ++ [p]

/-- One closure-expansion pass: add every REQUIRED parameter name of every
vertex already in the accumulator. -/
def expandOnce (g : FunctionGraph) (acc : List String) : List String :=
  acc.foldl
    (fun a v =>
      match nodeByName g v with
      | some n => (requiredParamNames n).foldl insertNew a
      | Option.none => a)
    acc

/-- Iterate closure expansion a given number of times. -/
def iterExpand : Nat → FunctionGraph → List String → List String
  | 0, _, acc => acc
  | Nat.succ k, g, acc => iterExpand k g (expandOnce g acc)

/-- Fuel sufficient to reach the closure fixpoint: every name that can ever
enter the accumulator is a requested name or a parameter name. -/
def closureFuel (g : FunctionGraph) (finalVars : List String) : Nat :=
  finalVars.length +
    (g.nodes.map fun n => n.inputTypes.length).sum + 1

/-- Modelled from the spec: the upstream closure over names — the requested
names plus, transitively, every REQUIRED parameter name of an included
vertex, stopping at leaves. -/
def upstreamClosure (g : FunctionGraph) (finalVars : List String) :
    List String :=
  iterExpand (closureFuel g finalVars) g (finalVars.foldl insertNew [])

/-- Build the `Node` object handed to validation for a user-supplied leaf
name: its type is taken from a consuming parameter declaration and its
`depended_on_by` is every vertex whose parameter list names it. -/
def mkUserNode (g : FunctionGraph) (p : String) : Node :=
  let consumers := g.nodes.filter fun n => (lookupParam n.inputTypes p).isSome
  { name := p
    type :=
      match consumers.findSome? fun n =>
          (lookupParam n.inputTypes p).map Prod.fst with
      | some t => t
      | Option.none => "Any"
    inputTypes := []
    dependedOnBy := consumers.map Node.toNodeCore
    compute := fun _ => Value.none }

/-- Modelled from the spec: `FunctionGraph.get_upstream_nodes` (graph.py is
not in `src/`): the vertices of the upstream closure of the requested
outputs, paired with the user-supplied subset (the leaves reached, including
requested names that are themselves leaves).  The provisional runtime-input
mapping does not influence the spec-level closure and is ignored. -/
def getUpstreamNodes (g : FunctionGraph) (finalVars : List String)
    (_inputs : List (String × Value)) : List Node × List Node :=
  let closure := upstreamClosure g finalVars
  let userNodes :=
    (closure.filter fun v => (nodeByName g v).isNone).map (mkUserNode g)
  (closure.filterMap (nodeByName g) ++ userNodes, userNodes)

/-- One memoized evaluation step (modelled from the spec execution rules):
skip if memoized; an override value is placed verbatim and `compute` is
skipped; a leaf takes its value from the combined leaf mapping when present;
otherwise evaluate the parameters first, gather the available ones from the
memo, and invoke `compute` once, recording the invocation in the trace. -/
def execNode : Nat → FunctionGraph → List (String × Value) →
    List (String × Value) → String →
    List (String × Value) × List String → List (String × Value) × List String
  | 0, _, _, _, _, st => st
  | Nat.succ fuel, g, ov, lv, v, st =>
    if (alookup st.1 v).isSome then st
    else
      match alookup ov v with
      | some val => (st.1 ++ [(v, val)], st.2)
      | Option.none =>
        match nodeByName g v with
        | Option.none =>
          match alookup lv v with
          | some val => (st.1 ++ [(v, val)], st.2)
          | Option.none => st
        | some n =>
          let st2 := (n.inputTypes.map Prod.fst).foldl
            (fun s p => execNode fuel g ov lv p s) st
          let args := n.inputTypes.filterMap fun p =>
            (alookup st2.1 p.1).map fun val => (p.1, val)
          (st2.1 ++ [(v, n.compute args)], st2.2 ++ [v])

/-- Modelled from the spec: `FunctionGraph.execute` (graph.py is not in
`src/`): combine config and runtime inputs into the leaf mapping, then
populate a fresh memo over the given vertex set; also returns the trace of
`compute` invocations (for stating that validation precedes computation). -/
def graphExecute (g : FunctionGraph) (nodes : List Node)
    (overrides inputs : List (String × Value)) :
    Except String (List (String × Value) × List String) :=
  match combineConfigAndInputs g.config inputs with
  | Except.error e => Except.error e
  | Except.ok leafVals =>
    Except.ok (nodes.foldl
      (fun st n => execNode (g.nodes.length + 1) g overrides leafVals n.name st)
      ([], []))

/-- The extraction of driver.py line 154 (a dict comprehension over
`final_vars` reading `memo`), raising a key error on the first requested name
absent from the memo. -/
def extractOutputs (memo : List (String × Value)) :
    List String → Except String (List (String × Value))
  | [] => Except.ok []
  | c :: rest =>
    match alookup memo c with
    | some val =>
      match extractOutputs memo rest with
      | Except.ok outs => Except.ok ((c, val) :: outs)
      | Except.error e => Except.error e
    | Option.none => Except.error ("KeyError: " ++ c)

/-- The restriction of the dependency relation to a subset: the successors of
`v` inside the subset are the parameter names of the vertex named `v` that
lie in the subset (empty when `v` is outside the subset or a leaf). -/
def succsIn (g : FunctionGraph) (subset : List String) (v : String) :
    List String :=
  if subset.contains v then
    match nodeByName g v with
    | some n => (n.inputTypes.map Prod.fst).filter fun p => subset.contains p
    | Option.none => []
  else []

/-- One saturation step of reachable-set computation. -/
def grow (g : FunctionGraph) (subset : List String) (S : Finset String) :
    Finset String :=
  S ∪ S.biUnion fun v => (succsIn g subset v).toFinset

/-- The set of names reachable in one or more dependency steps from `v`
inside the subset, computed by saturating for `subset.length + 1` rounds. -/
def reachSet (g : FunctionGraph) (subset : List String) (v : String) :
    Finset String :=
  (grow g subset)^[subset.length + 1] (succsIn g subset v).toFinset

/-- Modelled from the spec: `FunctionGraph.has_cycles` (graph.py is not in
`src/`): whether the dependency relation restricted to the subset has a
cycle, decided by bounded reachability. -/
def hasCyclesOn (g : FunctionGraph) (subset : List String) : Bool :=
  subset.any fun v => v ∈ reachSet g subset v

/-- The declarative reading of cyclicity from the spec: some vertex of the
subset reaches itself through a nonempty chain of restricted dependency
steps. -/
def CyclicOn (g : FunctionGraph) (subset : List String) : Prop :=
  ∃ v, v ∈ subset ∧
    Relation.TransGen (fun a b => b ∈ succsIn g subset a) v v

/-- The Adapter capability consumed by the orchestrator: a type check for
user-supplied leaf values and a result builder producing the caller-facing
artifact of type `R`. -/
structure Adapter (R : Type) where
  checkInputType : Ty → Value → Bool
  buildResult : List (String × Value) → R

/-- The `Driver` (driver.py lines 41-60): one graph plus one adapter. -/
structure Driver (R : Type) where
  graph : FunctionGraph
  adapter : Adapter R

/-- `Driver.__init__` (driver.py lines 44-60): construct the function graph,
logging and re-raising any construction failure unmodified (logging is not
observable in the model).  The adapter is taken explicitly; the defaulting to
`SimplePythonDataFrameGraphAdapter` lives in missing `base.py`. -/
def mkDriver {R : Type} (config : List (String × Value))
    (decls : List NodeDecl) (adapter : Adapter R) :
    Except String (Driver R) :=
  match mkFunctionGraph decls config with
  | Except.error e => Except.error e
  | Except.ok g => Except.ok { graph := g, adapter := adapter }

/-- `Driver.validate_inputs` with the driver's own adapter and config
(driver.py line 78). -/
def Driver.validate {R : Type} (d : Driver R) (userNodes : List Node)
    (inputs : List (String × Value)) : Except String Unit :=
  validateInputs d.adapter.checkInputType d.graph.config userNodes inputs

/-- `Driver.has_cycles` (driver.py lines 201-209): recompute the upstream
closure for the requested outputs and report whether it is cyclic. -/
def Driver.hasCyclesAt {R : Type} (d : Driver R) (finalVars : List String) :
    Bool :=
  hasCyclesOn d.graph (upstreamClosure d.graph finalVars)

/-- The cycle error raised on the deprecated path (driver.py line 151). -/
def cyclesMsg : String := "Error: cycles detected in you graph."

/-- The post-validation body of `raw_execute` (driver.py lines 152-156):
create a fresh memo, run graph execution, extract exactly the requested
outputs, discard the memo.  The second component is the trace of `compute`
invocations. -/
def rawExecuteCore {R : Type} (d : Driver R) (finalVars : List String)
    (nodes : List Node) (overrides inputs : List (String × Value)) :
    Except String (List (String × Value)) × List String :=
  match graphExecute d.graph nodes overrides inputs with
  | Except.error e => (Except.error e, [])
  | Except.ok (memo, tr) =>
    match extractOutputs memo finalVars with
    | Except.error e => (Except.error e, tr)
    | Except.ok outs => (Except.ok outs, tr)

/-- `Driver.raw_execute` (driver.py lines 128-156), instrumented with the
trace of `compute` invocations: compute the upstream closure, validate
inputs, then (deprecated `display_graph` flow only) re-validate via
`visualize_execution` and raise on cycles, then run the core.  Rendering is
out of scope and modelled as a no-op. -/
def rawExecuteTraced {R : Type} (d : Driver R) (finalVars : List String)
    (overrides inputs : List (String × Value)) (displayGraph : Bool) :
    Except String (List (String × Value)) × List String :=
  match d.validate (getUpstreamNodes d.graph finalVars inputs).2 inputs with
  | Except.error e => (Except.error e, [])
  | Except.ok _ =>
    if displayGraph then
      match d.validate (getUpstreamNodes d.graph finalVars inputs).2 inputs with
      | Except.error e => (Except.error e, [])
      | Except.ok _ =>
        if d.hasCyclesAt finalVars then (Except.error cyclesMsg, [])
        else rawExecuteCore d finalVars
          (getUpstreamNodes d.graph finalVars inputs).1 overrides inputs
    else rawExecuteCore d finalVars
      (getUpstreamNodes d.graph finalVars inputs).1 overrides inputs

/-- `Driver.raw_execute` proper: the outputs, without the instrumentation
trace. -/
def rawExecute {R : Type} (d : Driver R) (finalVars : List String)
    (overrides inputs : List (String × Value)) (displayGraph : Bool) :
    Except String (List (String × Value)) :=
  (rawExecuteTraced d finalVars overrides inputs displayGraph).1

/-- `Driver.execute` (driver.py lines 104-126): run `raw_execute` and hand
the outputs to the adapter's result builder; any error is logged and
re-raised unmodified (logging is not observable in the model). -/
def execute {R : Type} (d : Driver R) (finalVars : List String)
    (overrides inputs : List (String × Value)) (displayGraph : Bool) :
    Except String R :=
  match rawExecute d finalVars overrides inputs displayGraph with
  | Except.error e => Except.error e
  | Except.ok outputs => Except.ok (d.adapter.buildResult outputs)

/-! Concrete fixtures used by witnesses and counterexamples. -/

/-- An adapter check that accepts every value. -/
def exCheckTrue : Ty → Value → Bool := fun _ _ => true

/-- An adapter check that rejects every value. -/
def exCheckFalse : Ty → Value → Bool := fun _ _ => false

/-- Core data of a vertex `A` with one REQUIRED parameter `x`. -/
def exCoreA : NodeCore where
  name := "A"
  type := "int"
  inputTypes := [("x", "int", DependencyType.REQUIRED)]

/-- A user-supplied leaf `x` whose sole dependent `A` requires it. -/
def exNodeX : Node where
  toNodeCore := { name := "x", type := "int", inputTypes := [] }
  dependedOnBy := [exCoreA]
  compute := fun _ => Value.none

/-- Core data of a vertex `O` whose parameter `x` is OPTIONAL. -/
def exCoreO : NodeCore where
  name := "O"
  type := "int"
  inputTypes := [("x", "int", DependencyType.OPTIONAL)]

/-- A user-supplied leaf `x` whose sole dependent treats it as OPTIONAL. -/
def exNodeXOpt : Node where
  toNodeCore := { name := "x", type := "int", inputTypes := [] }
  dependedOnBy := [exCoreO]
  compute := fun _ => Value.none

/-- Declaration of a vertex `A` computing `x + 1` from the leaf `x`. -/
def exDeclA : NodeDecl where
  name := "A"
  type := "int"
  params := [("x", "int", DependencyType.REQUIRED)]
  compute := fun args =>
    match alookup args "x" with
    | some (Value.int n) => Value.int (n + 1)
    | _ => Value.none

/-- Declaration of a vertex `B` computing `2 * A`. -/
def exDeclB : NodeDecl where
  name := "B"
  type := "int"
  params := [("A", "int", DependencyType.REQUIRED)]
  compute := fun args =>
    match alookup args "A" with
    | some (Value.int n) => Value.int (n * 2)
    | _ => Value.none

/-- Declaration of a vertex `P` requiring `Q` (half of a 2-cycle). -/
def exDeclP : NodeDecl where
  name := "P"
  type := "int"
  params := [("Q", "int", DependencyType.REQUIRED)]
  compute := fun _ => Value.int 0

/-- Declaration of a vertex `Q` requiring `P` (half of a 2-cycle). -/
def exDeclQ : NodeDecl where
  name := "Q"
  type := "int"
  params := [("P", "int", DependencyType.REQUIRED)]
  compute := fun _ => Value.int 0

/-- The identity result builder with an accept-all type check. -/
def exAdapter : Adapter (List (String × Value)) where
  checkInputType := exCheckTrue
  buildResult := id

/-- The acyclic two-vertex graph built from `exDeclA`, `exDeclB`. -/
def exGraphAB : FunctionGraph :=
  match mkFunctionGraph [exDeclA, exDeclB] [] with
  | Except.ok g => g
  | Except.error _ => { nodes := [], config := [] }

/-- Driver over the acyclic graph. -/
def exDriverAB : Driver (List (String × Value)) where
  graph := exGraphAB
  adapter := exAdapter

/-- The cyclic graph `P ↔ Q`. -/
def exGraphPQ : FunctionGraph :=
  match mkFunctionGraph [exDeclP, exDeclQ] [] with
  | Except.ok g => g
  | Except.error _ => { nodes := [], config := [] }

/-- Driver over the cyclic graph. -/
def exDriverPQ : Driver (List (String × Value)) where
  graph := exGraphPQ
  adapter := exAdapter

/-! ## Helper lemmas -/

/-- Folding error-append over a node list is flat-mapping the per-node
errors. -/
theorem foldl_append_errors (f : Node → List String) :
    ∀ (l : List Node) (acc : List String),
      l.foldl (fun errs un => errs ++ f un) acc = acc ++ l.flatMap f := by
  intro l
  induction l with
  | nil => intro acc; simp
  | cons hd tl ih =>
    intro acc
    simp only [List.foldl_cons, List.flatMap_cons, ih, List.append_assoc]

/-- `collectErrors` gathers exactly the per-node violations of every user
node, in order. -/
theorem collectErrors_eq_flatMap (check : Ty → Value → Bool)
    (m : List (String × Value)) (userNodes : List Node) :
    collectErrors check m userNodes = userNodes.flatMap (nodeErrors check m) := by
  simpa [collectErrors] using foldl_append_errors (nodeErrors check m) userNodes []

/-- Sorting the error list is a permutation of it. -/
theorem sortErrors_perm (errs : List String) : (sortErrors errs).Perm errs :=
  List.mergeSort_perm errs _

/-- The sorted error list is sorted by the string order. -/
theorem sortErrors_sorted (errs : List String) :
    List.Sorted (· ≤ ·) (sortErrors errs) := by
  have htrans : ∀ a b c : String, decide (a ≤ b) = true → decide (b ≤ c) = true →
      decide (a ≤ c) = true := by
    intro a b c h1 h2
    simp only [decide_eq_true_iff] at h1 h2 ⊢
    exact le_trans h1 h2
  have htotal : ∀ a b : String, (decide (a ≤ b) || decide (b ≤ a)) = true := by
    intro a b
    rcases le_total a b with h | h
    · simp [h]
    · simp [h]
  have h : List.Pairwise (fun a b : String => decide (a ≤ b) = true)
      (errs.mergeSort fun a b => decide (a ≤ b)) :=
    List.sorted_mergeSort htrans htotal errs
  exact h.imp fun hab => of_decide_eq_true hab

/-- When the config/input merge succeeds and no node contributes a
violation, validation succeeds. -/
theorem validateInputs_eq_ok (check : Ty → Value → Bool)
    (config : List (String × Value)) (userNodes : List Node)
    (inputs m : List (String × Value))
    (hc : combineConfigAndInputs config inputs = Except.ok m)
    (h : userNodes.flatMap (nodeErrors check m) = []) :
    validateInputs check config userNodes inputs = Except.ok () := by
  simp [validateInputs, hc, collectErrors_eq_flatMap, h]

/-- When the config/input merge succeeds and some node contributes a
violation, validation fails with the combined message over the sorted
violation list. -/
theorem validateInputs_eq_error (check : Ty → Value → Bool)
    (config : List (String × Value)) (userNodes : List Node)
    (inputs m : List (String × Value))
    (hc : combineConfigAndInputs config inputs = Except.ok m)
    (h : userNodes.flatMap (nodeErrors check m) ≠ []) :
    validateInputs check config userNodes inputs =
      Except.error
        (errorString (sortErrors (userNodes.flatMap (nodeErrors check m)))) := by
  simp [validateInputs, hc, collectErrors_eq_flatMap, h]

/-- A validation failure short-circuits `raw_execute` before the memo is
created: the result is that error and the compute trace is empty. -/
theorem rawExecuteTraced_error_of_validate {R : Type} (d : Driver R)
    (finalVars : List String) (overrides inputs : List (String × Value))
    (displayGraph : Bool) (e : String)
    (h : d.validate (getUpstreamNodes d.graph finalVars inputs).2 inputs =
      Except.error e) :
    rawExecuteTraced d finalVars overrides inputs displayGraph =
      (Except.error e, []) := by
  simp [rawExecuteTraced, h]

/-! ## Claims -/

/-- C1: for every call to `validate_inputs` whose config/input merge
succeeds, the violations of all user nodes (missing required leaves and type
mismatches) are collected across every node rather than failing on the first
one; when none exist validation succeeds, and otherwise a single combined
error is raised whose message is built from a sorted permutation of the full
violation list, one entry per violation. -/
theorem validate_collects_sorts_and_combines (check : Ty → Value → Bool)
    (config : List (String × Value)) (userNodes : List Node)
    (inputs m : List (String × Value))
    (hc : combineConfigAndInputs config inputs = Except.ok m) :
    (userNodes.flatMap (nodeErrors check m) = [] →
      validateInputs check config userNodes inputs = Except.ok ()) ∧
    (userNodes.flatMap (nodeErrors check m) ≠ [] →
      ∃ es, es.Perm (userNodes.flatMap (nodeErrors check m)) ∧
        List.Sorted (· ≤ ·) es ∧
        validateInputs check config userNodes inputs =
          Except.error (errorString es)) := by
  constructor
  · intro h0
    exact validateInputs_eq_ok check config userNodes inputs m hc h0
  · intro hne
    exact ⟨sortErrors (userNodes.flatMap (nodeErrors check m)),
      sortErrors_perm _, sortErrors_sorted _,
      validateInputs_eq_error check config userNodes inputs m hc hne⟩

/-- Witness for C1 at a concrete call: the leaf `x` required by `A` and
absent from config and inputs yields the combined one-entry error. -/
theorem validate_collects_sorts_and_combines_witness :
    (([exNodeX].flatMap (nodeErrors exCheckTrue []) = [] →
      validateInputs exCheckTrue [] [exNodeX] [] = Except.ok ()) ∧
    ([exNodeX].flatMap (nodeErrors exCheckTrue []) ≠ [] →
      ∃ es, es.Perm ([exNodeX].flatMap (nodeErrors exCheckTrue [])) ∧
        List.Sorted (· ≤ ·) es ∧
        validateInputs exCheckTrue [] [exNodeX] [] =
          Except.error (errorString es))) :=
  validate_collects_sorts_and_combines exCheckTrue [] [exNodeX] [] [] rfl

/-- C2: `_node_is_required_by_anything` returns true iff some dependent
declares the parameter named after the node REQUIRED; in particular it
returns false when the node has no dependents or when every dependent
declares that parameter OPTIONAL.  (The well-formedness hypothesis restricts
to graphs where every dependent has the entry, where the Python would not
raise `KeyError`.) -/
theorem node_required_iff_some_dependent_requires (n : Node)
    (_hwf : ∀ d ∈ n.dependedOnBy, (lookupParam d.inputTypes n.name).isSome) :
    (nodeIsRequiredByAnything n = true ↔
      ∃ d ∈ n.dependedOnBy, ∃ t,
        lookupParam d.inputTypes n.name = some (t, DependencyType.REQUIRED)) ∧
    (n.dependedOnBy = [] → nodeIsRequiredByAnything n = false) ∧
    ((∀ d ∈ n.dependedOnBy, ∀ t dt,
        lookupParam d.inputTypes n.name = some (t, dt) →
          dt = DependencyType.OPTIONAL) →
      nodeIsRequiredByAnything n = false) := by
  have hiff : nodeIsRequiredByAnything n = true ↔
      ∃ d ∈ n.dependedOnBy, ∃ t,
        lookupParam d.inputTypes n.name = some (t, DependencyType.REQUIRED) := by
    unfold nodeIsRequiredByAnything
    rw [List.any_eq_true]
    constructor
    · rintro ⟨d, hd, hp⟩
      refine ⟨d, hd, ?_⟩
      rcases h : lookupParam d.inputTypes n.name with _ | ⟨t, dt⟩
      · rw [h] at hp; simp at hp
      · cases dt with
        | REQUIRED => exact ⟨t, rfl⟩
        | OPTIONAL => rw [h] at hp; simp at hp
    · rintro ⟨d, hd, t, ht⟩
      exact ⟨d, hd, by rw [ht]⟩
  refine ⟨hiff, ?_, ?_⟩
  · intro hnil
    unfold nodeIsRequiredByAnything
    rw [hnil]
    rfl
  · intro hopt
    rcases h : nodeIsRequiredByAnything n with _ | _
    · rfl
    · exfalso
      rcases hiff.mp h with ⟨d, hd, t, ht⟩
      have := hopt d hd t DependencyType.REQUIRED ht
      exact DependencyType.noConfusion this

/-- Witness for C2: the leaf `x` with its single REQUIRED dependent `A`. -/
theorem node_required_iff_witness :
    ((nodeIsRequiredByAnything exNodeX = true ↔
      ∃ d ∈ exNodeX.dependedOnBy, ∃ t,
        lookupParam d.inputTypes exNodeX.name =
          some (t, DependencyType.REQUIRED)) ∧
    (exNodeX.dependedOnBy = [] → nodeIsRequiredByAnything exNodeX = false) ∧
    ((∀ d ∈ exNodeX.dependedOnBy, ∀ t dt,
        lookupParam d.inputTypes exNodeX.name = some (t, dt) →
          dt = DependencyType.OPTIONAL) →
      nodeIsRequiredByAnything exNodeX = false)) :=
  node_required_iff_some_dependent_requires exNodeX (by decide)

/-- A violating node makes validation fail (helper for C3/C4): if some
member node contributes a violation, `validate_inputs` raises. -/
theorem validateInputs_error_of_member (check : Ty → Value → Bool)
    (config : List (String × Value)) (userNodes : List Node)
    (inputs m : List (String × Value)) (un : Node)
    (hc : combineConfigAndInputs config inputs = Except.ok m)
    (hmem : un ∈ userNodes) (hne : nodeErrors check m un ≠ []) :
    ∃ e, validateInputs check config userNodes inputs = Except.error e := by
  refine ⟨_, validateInputs_eq_error check config userNodes inputs m hc ?_⟩
  intro hall
  apply hne
  rcases h : nodeErrors check m un with _ | ⟨a, rest⟩
  · rfl
  · exfalso
    have : a ∈ userNodes.flatMap (nodeErrors check m) :=
      List.mem_flatMap.mpr ⟨un, hmem, by rw [h]; exact List.mem_cons_self a rest⟩
    rw [hall] at this
    exact List.not_mem_nil a this

/-- C3: a user node absent from the combined config+inputs mapping yields,
when some dependent requires it, exactly the missing-input message (which
names the vertex and its dependents, the requiring ones among them), that
message is among the collected violations, and validation fails; when no
dependent requires it, the node contributes no violation at all. -/
theorem missing_input_error_iff_required (check : Ty → Value → Bool)
    (config : List (String × Value)) (userNodes : List Node)
    (inputs m : List (String × Value)) (un : Node)
    (hc : combineConfigAndInputs config inputs = Except.ok m)
    (hmem : un ∈ userNodes) (habs : alookup m un.name = Option.none) :
    (nodeIsRequiredByAnything un = true →
      nodeErrors check m un = [missingMsg un] ∧
      missingMsg un ∈ userNodes.flatMap (nodeErrors check m) ∧
      ∃ e, validateInputs check config userNodes inputs = Except.error e) ∧
    (nodeIsRequiredByAnything un = false → nodeErrors check m un = []) := by
  constructor
  · intro hreq
    have herr : nodeErrors check m un = [missingMsg un] := by
      simp [nodeErrors, habs, hreq]
    refine ⟨herr, ?_, ?_⟩
    · exact List.mem_flatMap.mpr ⟨un, hmem, by rw [herr]; exact List.mem_cons_self _ _⟩
    · exact validateInputs_error_of_member check config userNodes inputs m un hc
        hmem (by rw [herr]; simp)
  · intro hnreq
    simp [nodeErrors, habs, hnreq]

/-- Witness for C3: leaf `x`, required by `A`, absent from empty config and
inputs. -/
theorem missing_input_error_iff_required_witness :
    ((nodeIsRequiredByAnything exNodeX = true →
      nodeErrors exCheckTrue [] exNodeX = [missingMsg exNodeX] ∧
      missingMsg exNodeX ∈ [exNodeX].flatMap (nodeErrors exCheckTrue []) ∧
      ∃ e, validateInputs exCheckTrue [] [exNodeX] [] = Except.error e) ∧
    (nodeIsRequiredByAnything exNodeX = false →
      nodeErrors exCheckTrue [] exNodeX = [])) :=
  missing_input_error_iff_required exCheckTrue [] [exNodeX] [] [] exNodeX rfl
    (List.mem_cons_self _ _) rfl

/-- Counterexample to C4 as stated: the value supplied for the leaf `x` is
`None`, which the reject-all adapter check rejects against the declared type,
yet validation succeeds with no error (the code skips the check for `None`). -/
theorem typecheck_none_counterexample :
    alookup [("x", Value.none)] exNodeX.name = some Value.none ∧
    exCheckFalse exNodeX.type Value.none = false ∧
    combineConfigAndInputs [] [("x", Value.none)] =
      Except.ok [("x", Value.none)] ∧
    validateInputs exCheckFalse [] [exNodeX] [("x", Value.none)] =
      Except.ok () :=
  ⟨rfl, rfl, rfl, rfl⟩

/-- C4 (amended): a user node whose name is present in the combined mapping
with a value other than `None` that fails the adapter check contributes
exactly the type-mismatch message (naming the expected type and the actual
value), that message is among the collected violations, and validation
fails. -/
theorem typecheck_mismatch_errors (check : Ty → Value → Bool)
    (config : List (String × Value)) (userNodes : List Node)
    (inputs m : List (String × Value)) (un : Node) (v : Value)
    (hc : combineConfigAndInputs config inputs = Except.ok m)
    (hmem : un ∈ userNodes) (hv : alookup m un.name = some v)
    (hnn : v ≠ Value.none) (hfail : check un.type v = false) :
    nodeErrors check m un = [typeMsg un v] ∧
    typeMsg un v ∈ userNodes.flatMap (nodeErrors check m) ∧
    ∃ e, validateInputs check config userNodes inputs = Except.error e := by
  have herr : nodeErrors check m un = [typeMsg un v] := by
    simp [nodeErrors, hv, hnn, hfail]
  refine ⟨herr, ?_, ?_⟩
  · exact List.mem_flatMap.mpr ⟨un, hmem, by rw [herr]; exact List.mem_cons_self _ _⟩
  · exact validateInputs_error_of_member check config userNodes inputs m un hc
      hmem (by rw [herr]; simp)

/-- Witness for the amended C4: the non-`None` value `3` supplied for `x`
rejected by the reject-all check. -/
theorem typecheck_mismatch_errors_witness :
    nodeErrors exCheckFalse [("x", Value.int 3)] exNodeX =
      [typeMsg exNodeX (Value.int 3)] ∧
    typeMsg exNodeX (Value.int 3) ∈
      [exNodeX].flatMap (nodeErrors exCheckFalse [("x", Value.int 3)]) ∧
    ∃ e, validateInputs exCheckFalse [] [exNodeX] [("x", Value.int 3)] =
      Except.error e :=
  typecheck_mismatch_errors exCheckFalse [] [exNodeX] [("x", Value.int 3)]
    [("x", Value.int 3)] exNodeX (Value.int 3) rfl (List.mem_cons_self _ _) rfl
    (by decide) rfl

/-- C10: a combined value of `None` for a user node bypasses type checking
entirely: whatever check function the adapter supplies and whatever the
declared type, the node contributes no violation. -/
theorem none_value_bypasses_typecheck (check : Ty → Value → Bool)
    (config : List (String × Value)) (inputs m : List (String × Value))
    (un : Node)
    (_hc : combineConfigAndInputs config inputs = Except.ok m)
    (hv : alookup m un.name = some Value.none) :
    nodeErrors check m un = [] := by
  simp [nodeErrors, hv]

/-- Witness for C10: the reject-all check on a `None` value for `x`. -/
theorem none_value_bypasses_typecheck_witness :
    nodeErrors exCheckFalse [("x", Value.none)] exNodeX = [] :=
  none_value_bypasses_typecheck exCheckFalse [] [("x", Value.none)]
    [("x", Value.none)] exNodeX rfl rfl

/-- C9: a key present in both the static config and the runtime inputs makes
the merge fail, hence validation fails with that same error and
`raw_execute` stops before any computation (empty compute trace). -/
theorem config_input_clash_rejected {R : Type} (d : Driver R)
    (finalVars : List String) (overrides inputs : List (String × Value))
    (displayGraph : Bool) (k : String)
    (hk : k ∈ d.graph.config.map Prod.fst)
    (hi : (alookup inputs k).isSome = true) :
    ∃ e, combineConfigAndInputs d.graph.config inputs = Except.error e ∧
      d.validate (getUpstreamNodes d.graph finalVars inputs).2 inputs =
        Except.error e ∧
      rawExecuteTraced d finalVars overrides inputs displayGraph =
        (Except.error e, []) := by
  have hdup : k ∈ (d.graph.config.map Prod.fst).filter
      fun k => (alookup inputs k).isSome :=
    List.mem_filter.mpr ⟨hk, hi⟩
  have hemp : ((d.graph.config.map Prod.fst).filter
      fun k => (alookup inputs k).isSome).isEmpty = false := by
    cases hfe : ((d.graph.config.map Prod.fst).filter
        fun k => (alookup inputs k).isSome).isEmpty
    · rfl
    · rw [List.isEmpty_iff.mp hfe] at hdup
      exact absurd hdup (List.not_mem_nil k)
  have hcomb : combineConfigAndInputs d.graph.config inputs =
      Except.error ("The following keys are present in both config and inputs: ["
        ++ String.intercalate ", "
          ((d.graph.config.map Prod.fst).filter
            fun k => (alookup inputs k).isSome) ++ "]") := by
    simp [combineConfigAndInputs, hemp]
  have hval : d.validate (getUpstreamNodes d.graph finalVars inputs).2 inputs =
      Except.error ("The following keys are present in both config and inputs: ["
        ++ String.intercalate ", "
          ((d.graph.config.map Prod.fst).filter
            fun k => (alookup inputs k).isSome) ++ "]") := by
    simp [Driver.validate, validateInputs, hcomb]
  exact ⟨_, hcomb, hval,
    rawExecuteTraced_error_of_validate d finalVars overrides inputs
      displayGraph _ hval⟩

/-- Witness for C9: the key `x` supplied both in config and at runtime. -/
theorem config_input_clash_rejected_witness :
    ∃ e, combineConfigAndInputs
        (Driver.graph
          { graph := { nodes := [], config := [("x", Value.int 1)] },
            adapter := exAdapter }).config [("x", Value.int 2)] =
        Except.error e ∧
      Driver.validate
          { graph := { nodes := [], config := [("x", Value.int 1)] },
            adapter := exAdapter }
          (getUpstreamNodes
            { nodes := [], config := [("x", Value.int 1)] } [] []).2
          [("x", Value.int 2)] = Except.error e ∧
      rawExecuteTraced
          { graph := { nodes := [], config := [("x", Value.int 1)] },
            adapter := exAdapter } [] [] [("x", Value.int 2)] false =
        (Except.error e, []) :=
  config_input_clash_rejected
    { graph := { nodes := [], config := [("x", Value.int 1)] },
      adapter := exAdapter } [] [] [("x", Value.int 2)] false "x"
    (by decide) rfl

/-- C6: on any execution call, a validation failure is raised before any
computation: `raw_execute` returns that very error, the compute-invocation
trace is empty, and hence no memo entry was ever produced for the call. -/
theorem validation_precedes_computation {R : Type} (d : Driver R)
    (finalVars : List String) (overrides inputs : List (String × Value))
    (displayGraph : Bool) (e : String)
    (h : d.validate (getUpstreamNodes d.graph finalVars inputs).2 inputs =
      Except.error e) :
    rawExecuteTraced d finalVars overrides inputs displayGraph =
      (Except.error e, []) ∧
    rawExecute d finalVars overrides inputs displayGraph = Except.error e := by
  have ht := rawExecuteTraced_error_of_validate d finalVars overrides inputs
    displayGraph e h
  exact ⟨ht, by rw [rawExecute, ht]⟩

/-- Witness for C6: the missing required input `x` on the concrete A-B graph
aborts before any compute invocation. -/
theorem validation_precedes_computation_witness :
    rawExecuteTraced exDriverAB ["B"] [] [] false =
      (Except.error (errorString (sortErrors
        (((getUpstreamNodes exDriverAB.graph ["B"] []).2).flatMap
          (nodeErrors exDriverAB.adapter.checkInputType [])))), []) ∧
    rawExecute exDriverAB ["B"] [] [] false =
      Except.error (errorString (sortErrors
        (((getUpstreamNodes exDriverAB.graph ["B"] []).2).flatMap
          (nodeErrors exDriverAB.adapter.checkInputType [])))) :=
  validation_precedes_computation exDriverAB ["B"] [] [] false _
    (validateInputs_eq_error exDriverAB.adapter.checkInputType
      exDriverAB.graph.config (getUpstreamNodes exDriverAB.graph ["B"] []).2
      [] [] rfl (by decide))

/-- Extraction characterization: a successful extraction returns exactly the
requested names, in order, each paired with its memo value. -/
theorem extractOutputs_ok_char (memo : List (String × Value)) :
    ∀ (finalVars : List String) (outs : List (String × Value)),
      extractOutputs memo finalVars = Except.ok outs →
      outs.map Prod.fst = finalVars ∧
      ∀ p ∈ outs, alookup memo p.1 = some p.2 := by
  intro finalVars
  induction finalVars with
  | nil =>
    intro outs h
    simp only [extractOutputs] at h
    cases h
    exact ⟨rfl, by intro p hp; exact absurd hp (List.not_mem_nil p)⟩
  | cons c rest ih =>
    intro outs h
    simp only [extractOutputs] at h
    rcases hl : alookup memo c with _ | val
    · rw [hl] at h; cases h
    · rw [hl] at h
      rcases hr : extractOutputs memo rest with e | outs1
      · rw [hr] at h; cases h
      · rw [hr] at h
        cases h
        rcases ih outs1 hr with ⟨hkeys, hvals⟩
        refine ⟨by simp [hkeys], ?_⟩
        intro p hp
        rcases List.mem_cons.mp hp with hp1 | hp2
        · rw [hp1]; exact hl
        · exact hvals p hp2

/-- A successful `rawExecuteCore` decomposes into a successful graph
execution and a successful extraction. -/
theorem rawExecuteCore_ok_char {R : Type} (d : Driver R)
    (finalVars : List String) (nodes : List Node)
    (overrides inputs : List (String × Value)) (outs : List (String × Value))
    (h : (rawExecuteCore d finalVars nodes overrides inputs).1 =
      Except.ok outs) :
    ∃ memo tr, graphExecute d.graph nodes overrides inputs =
        Except.ok (memo, tr) ∧
      extractOutputs memo finalVars = Except.ok outs := by
  unfold rawExecuteCore at h
  rcases hge : graphExecute d.graph nodes overrides inputs with e | ⟨memo, tr⟩
  · rw [hge] at h; simp at h
  · rw [hge] at h
    rcases hex : extractOutputs memo finalVars with e | outs1
    · simp [hex] at h
    · simp [hex] at h
      exact ⟨memo, tr, rfl, by rw [hex, h]⟩

/-- A successful `raw_execute` passed validation and came from the core. -/
theorem rawExecute_ok_char {R : Type} (d : Driver R)
    (finalVars : List String) (overrides inputs : List (String × Value))
    (displayGraph : Bool) (outs : List (String × Value))
    (h : rawExecute d finalVars overrides inputs displayGraph =
      Except.ok outs) :
    d.validate (getUpstreamNodes d.graph finalVars inputs).2 inputs =
      Except.ok () ∧
    (rawExecuteCore d finalVars (getUpstreamNodes d.graph finalVars inputs).1
      overrides inputs).1 = Except.ok outs := by
  unfold rawExecute rawExecuteTraced at h
  rcases hval : d.validate (getUpstreamNodes d.graph finalVars inputs).2 inputs
      with e | u
  · rw [hval] at h; simp at h
  · rw [hval] at h
    cases u
    cases displayGraph with
    | false =>
      simp at h
      exact ⟨rfl, h⟩
    | true =>
      by_cases hcy : d.hasCyclesAt finalVars = true
      · simp [hval, hcy] at h
      · simp [hval, hcy] at h
        exact ⟨rfl, h⟩

/-- C5: every successful execution validated its inputs, ran the graph over
the upstream closure of the requested outputs into a memo, extracted from
the memo exactly the requested names (no more, no fewer, values taken from
the memo), and `execute` hands exactly that mapping to the adapter's result
builder. -/
theorem execute_pipeline {R : Type} (d : Driver R) (finalVars : List String)
    (overrides inputs : List (String × Value)) (displayGraph : Bool)
    (outs : List (String × Value))
    (h : rawExecute d finalVars overrides inputs displayGraph =
      Except.ok outs) :
    outs.map Prod.fst = finalVars ∧
    d.validate (getUpstreamNodes d.graph finalVars inputs).2 inputs =
      Except.ok () ∧
    (∃ memo tr,
      graphExecute d.graph (getUpstreamNodes d.graph finalVars inputs).1
          overrides inputs = Except.ok (memo, tr) ∧
      extractOutputs memo finalVars = Except.ok outs ∧
      ∀ p ∈ outs, alookup memo p.1 = some p.2) ∧
    execute d finalVars overrides inputs displayGraph =
      Except.ok (d.adapter.buildResult outs) := by
  rcases rawExecute_ok_char d finalVars overrides inputs displayGraph outs h
    with ⟨hval, hcore⟩
  rcases rawExecuteCore_ok_char d finalVars _ overrides inputs outs hcore
    with ⟨memo, tr, hge, hex⟩
  rcases extractOutputs_ok_char memo finalVars outs hex with ⟨hkeys, hvals⟩
  refine ⟨hkeys, hval, ⟨memo, tr, hge, hex, hvals⟩, ?_⟩
  simp [execute, h]

/-- Witness for C5: executing `B` over the concrete A-B graph with `x = 5`
returns exactly `B = 12` and builds the result from it. -/
theorem execute_pipeline_witness :
    [("B", Value.int 12)].map Prod.fst = ["B"] ∧
    exDriverAB.validate
        (getUpstreamNodes exDriverAB.graph ["B"] [("x", Value.int 5)]).2
        [("x", Value.int 5)] = Except.ok () ∧
    (∃ memo tr,
      graphExecute exDriverAB.graph
          (getUpstreamNodes exDriverAB.graph ["B"] [("x", Value.int 5)]).1
          [] [("x", Value.int 5)] = Except.ok (memo, tr) ∧
      extractOutputs memo ["B"] = Except.ok [("B", Value.int 12)] ∧
      ∀ p ∈ [("B", Value.int 12)], alookup memo p.1 = some p.2) ∧
    execute exDriverAB ["B"] [] [("x", Value.int 5)] false =
      Except.ok (exDriverAB.adapter.buildResult [("B", Value.int 12)]) :=
  execute_pipeline exDriverAB ["B"] [] [("x", Value.int 5)] false
    [("B", Value.int 12)] rfl

/-- C7: construction and execution errors propagate unmodified: a failing
graph construction makes the driver constructor fail with the same error, a
failing `raw_execute` makes `execute` fail with the same error, and a
successful `execute` always comes from a successful `raw_execute` whose
outputs were handed to the result builder — never from a swallowed error. -/
theorem exceptions_propagate_unmodified {R : Type}
    (config : List (String × Value)) (decls : List NodeDecl)
    (ad : Adapter R) (d : Driver R) (finalVars : List String)
    (overrides inputs : List (String × Value)) (displayGraph : Bool) :
    (∀ e, mkFunctionGraph decls config = Except.error e →
      mkDriver config decls ad = Except.error e) ∧
    (∀ e, rawExecute d finalVars overrides inputs displayGraph =
        Except.error e →
      execute d finalVars overrides inputs displayGraph = Except.error e) ∧
    (∀ r, execute d finalVars overrides inputs displayGraph = Except.ok r →
      ∃ outs, rawExecute d finalVars overrides inputs displayGraph =
          Except.ok outs ∧
        r = d.adapter.buildResult outs) := by
  refine ⟨?_, ?_, ?_⟩
  · intro e he
    simp [mkDriver, he]
  · intro e he
    simp [execute, he]
  · intro r hr
    unfold execute at hr
    rcases hre : rawExecute d finalVars overrides inputs displayGraph
        with e | outs
    · rw [hre] at hr; cases hr
    · rw [hre] at hr
      cases hr
      exact ⟨outs, rfl, rfl⟩

/-- Witness for C7: a duplicate-name construction fails the constructor with
the same message, and the missing-input execution error surfaces unchanged
through `execute`. -/
theorem exceptions_propagate_unmodified_witness :
    mkDriver [] [exDeclP, exDeclP] exAdapter =
      Except.error "Error: duplicate output name among computation units." ∧
    execute exDriverAB ["B"] [] [] false =
      Except.error (errorString (sortErrors
        (((getUpstreamNodes exDriverAB.graph ["B"] []).2).flatMap
          (nodeErrors exDriverAB.adapter.checkInputType [])))) := by
  have hval := validateInputs_eq_error exDriverAB.adapter.checkInputType
    exDriverAB.graph.config (getUpstreamNodes exDriverAB.graph ["B"] []).2
    [] [] rfl (by decide)
  have hraw : rawExecute exDriverAB ["B"] [] [] false =
      Except.error (errorString (sortErrors
        (((getUpstreamNodes exDriverAB.graph ["B"] []).2).flatMap
          (nodeErrors exDriverAB.adapter.checkInputType [])))) := by
    unfold rawExecute
    rw [rawExecuteTraced_error_of_validate exDriverAB ["B"] [] [] false _ hval]
  exact ⟨(exceptions_propagate_unmodified [] [exDeclP, exDeclP] exAdapter
      exDriverAB ["B"] [] [] false).1 _ rfl,
    (exceptions_propagate_unmodified [] [exDeclP, exDeclP] exAdapter
      exDriverAB ["B"] [] [] false).2.1 _ hraw⟩

/-! ## Cycle detection: bounded reachability meets the transitive closure -/

/-- Restricted successors stay inside the subset. -/
theorem mem_succsIn_subset {g : FunctionGraph} {subset : List String}
    {v x : String} (h : x ∈ succsIn g subset v) : x ∈ subset := by
  unfold succsIn at h
  split at h
  · split at h
    · have := (List.mem_filter.mp h).2
      simpa using this
    · exact absurd h (List.not_mem_nil x)
  · exact absurd h (List.not_mem_nil x)

/-- Membership in one saturation step. -/
theorem mem_grow {g : FunctionGraph} {subset : List String}
    {S : Finset String} {x : String} :
    x ∈ grow g subset S ↔ x ∈ S ∨ ∃ u ∈ S, x ∈ succsIn g subset u := by
  simp [grow]

/-- A saturation step only adds elements. -/
theorem subset_grow (g : FunctionGraph) (subset : List String)
    (S : Finset String) : S ⊆ grow g subset S :=
  Finset.subset_union_left

/-- A saturation step stays inside the subset universe. -/
theorem grow_subset_univ {g : FunctionGraph} {subset : List String}
    {S : Finset String} (hS : S ⊆ subset.toFinset) :
    grow g subset S ⊆ subset.toFinset := by
  apply Finset.union_subset hS
  rw [Finset.biUnion_subset]
  intro v _ x hx
  rw [List.mem_toFinset] at hx ⊢
  exact mem_succsIn_subset hx

/-- Iterated saturation stays inside the subset universe. -/
theorem iterate_grow_subset_univ {g : FunctionGraph} {subset : List String}
    (k : Nat) {S : Finset String} (hS : S ⊆ subset.toFinset) :
    (grow g subset)^[k] S ⊆ subset.toFinset := by
  induction k with
  | zero => simpa
  | succ k ih =>
    rw [Function.iterate_succ_apply']
    exact grow_subset_univ ih

/-- The start set survives iterated saturation. -/
theorem subset_iterate_grow (g : FunctionGraph) (subset : List String)
    (k : Nat) (S : Finset String) : S ⊆ (grow g subset)^[k] S := by
  induction k with
  | zero => simp
  | succ k ih =>
    rw [Function.iterate_succ_apply']
    exact fun x hx => subset_grow g subset _ (ih hx)

/-- Soundness: everything reached by iterated saturation from the successors
of `v` is connected to the seed set by the transitive closure of the
restricted dependency step. -/
theorem reach_sound {g : FunctionGraph} {subset : List String} (v : String) :
    ∀ (k : Nat) (S : Finset String),
      (∀ u ∈ S, Relation.TransGen (fun a b => b ∈ succsIn g subset a) v u) →
      ∀ w ∈ (grow g subset)^[k] S,
        Relation.TransGen (fun a b => b ∈ succsIn g subset a) v w := by
  intro k
  induction k with
  | zero =>
    intro S hS w hw
    exact hS w (by simpa using hw)
  | succ k ih =>
    intro S hS w hw
    rw [Function.iterate_succ_apply'] at hw
    rcases mem_grow.mp hw with h1 | ⟨u, hu, hsucc⟩
    · exact ih S hS w h1
    · exact (ih S hS u hu).tail hsucc

/-- As long as saturation keeps strictly growing, cardinality grows by at
least one per round. -/
theorem card_le_of_strict_growth {g : FunctionGraph} {subset : List String} :
    ∀ (m : Nat) (S : Finset String),
      (∀ i < m,
        grow g subset ((grow g subset)^[i] S) ≠ (grow g subset)^[i] S) →
      S.card + m ≤ ((grow g subset)^[m] S).card := by
  intro m
  induction m with
  | zero => intro S _; simp
  | succ m ih =>
    intro S h
    have h1 : S.card + m ≤ ((grow g subset)^[m] S).card :=
      ih S fun i hi => h i (Nat.lt_succ_of_lt hi)
    have hss : (grow g subset)^[m] S ⊂ grow g subset ((grow g subset)^[m] S) :=
      Finset.ssubset_iff_subset_ne.mpr
        ⟨subset_grow g subset _, Ne.symm (h m (Nat.lt_succ_self m))⟩
    have h2 := Finset.card_lt_card hss
    rw [Function.iterate_succ_apply']
    omega

/-- After `subset.length + 1` rounds, saturation has reached a fixpoint. -/
theorem iterate_grow_fixed {g : FunctionGraph} {subset : List String}
    (S : Finset String) (hS : S ⊆ subset.toFinset) :
    grow g subset ((grow g subset)^[subset.length + 1] S) =
      (grow g subset)^[subset.length + 1] S := by
  by_cases hall : ∀ i < subset.length + 1,
      grow g subset ((grow g subset)^[i] S) ≠ (grow g subset)^[i] S
  · exfalso
    have h1 := card_le_of_strict_growth (subset.length + 1) S hall
    have h2 : ((grow g subset)^[subset.length + 1] S).card ≤
        subset.toFinset.card :=
      Finset.card_le_card (iterate_grow_subset_univ _ hS)
    have h3 := List.toFinset_card_le subset
    omega
  · push_neg at hall
    rcases hall with ⟨i, hi, hfix⟩
    have hstable : ∀ j, (grow g subset)^[i + j] S = (grow g subset)^[i] S := by
      intro j
      induction j with
      | zero => rfl
      | succ j ihj =>
        have hidx : i + (j + 1) = (i + j) + 1 := rfl
        rw [hidx, Function.iterate_succ_apply', ihj, hfix]
    have hn : (grow g subset)^[subset.length + 1] S =
        (grow g subset)^[i] S := by
      have hidx : subset.length + 1 = i + (subset.length + 1 - i) := by omega
      rw [hidx, hstable]
    rw [hn, hfix]

/-- Completeness: every vertex connected to `v` by the transitive closure of
the restricted step lies in the bounded reachable set. -/
theorem reach_complete {g : FunctionGraph} {subset : List String}
    (v w : String)
    (hw : Relation.TransGen (fun a b => b ∈ succsIn g subset a) v w) :
    w ∈ reachSet g subset v := by
  have hS0 : (succsIn g subset v).toFinset ⊆ subset.toFinset := by
    intro x hx
    rw [List.mem_toFinset] at hx ⊢
    exact mem_succsIn_subset hx
  have hfix := iterate_grow_fixed (g := g) (succsIn g subset v).toFinset hS0
  have hsub : (succsIn g subset v).toFinset ⊆ reachSet g subset v :=
    subset_iterate_grow g subset (subset.length + 1) _
  induction hw with
  | single h => exact hsub (List.mem_toFinset.mpr h)
  | tail hvu hub ih =>
    have hmem : _ ∈ grow g subset (reachSet g subset v) :=
      mem_grow.mpr (Or.inr ⟨_, ih, hub⟩)
    have hfix2 : grow g subset (reachSet g subset v) = reachSet g subset v :=
      hfix
    exact hfix2 ▸ hmem

/-- The executable cycle check decides the declarative cyclicity of the
restricted dependency relation. -/
theorem hasCyclesOn_iff_cyclic (g : FunctionGraph) (subset : List String) :
    hasCyclesOn g subset = true ↔ CyclicOn g subset := by
  unfold hasCyclesOn CyclicOn
  rw [List.any_eq_true]
  constructor
  · rintro ⟨v, hv, hmem⟩
    have hmem2 : v ∈ reachSet g subset v := of_decide_eq_true hmem
    refine ⟨v, hv, ?_⟩
    exact reach_sound v (subset.length + 1) (succsIn g subset v).toFinset
      (fun u hu => Relation.TransGen.single (List.mem_toFinset.mp hu)) v hmem2
  · rintro ⟨v, hv, htg⟩
    exact ⟨v, hv, decide_eq_true (reach_complete v v htg)⟩

/-- Counterexample to C8 as stated: on the cyclic graph `P ↔ Q`, an
execution call with the deprecated `display_graph` flag set raises the cycle
message as an error — cyclicity is not only a caller-visible boolean. -/
theorem cycle_error_on_deprecated_path_counterexample :
    exDriverPQ.hasCyclesAt ["P"] = true ∧
    rawExecuteTraced exDriverPQ ["P"] [] [] true =
      (Except.error cyclesMsg, []) ∧
    execute exDriverPQ ["P"] [] [] true = Except.error cyclesMsg :=
  ⟨by decide, rfl, rfl⟩

/-- C8 (amended): `has_cycles` recomputes the upstream closure of the
requested outputs and returns true exactly when that closure is cyclic;
and on the default (non-deprecated) execution path, `raw_execute` factors
into validation followed by the core, with no cycle check involved — only
the deprecated `display_graph` path raises on cycles. -/
theorem has_cycles_explicit_check {R : Type} (d : Driver R)
    (finalVars : List String) :
    (d.hasCyclesAt finalVars = true ↔
      CyclicOn d.graph (upstreamClosure d.graph finalVars)) ∧
    (∀ overrides inputs,
      rawExecuteTraced d finalVars overrides inputs false =
        match d.validate (getUpstreamNodes d.graph finalVars inputs).2 inputs
            with
        | Except.error e => (Except.error e, [])
        | Except.ok _ => rawExecuteCore d finalVars
            (getUpstreamNodes d.graph finalVars inputs).1 overrides inputs) := by
  constructor
  · exact hasCyclesOn_iff_cyclic d.graph (upstreamClosure d.graph finalVars)
  · intro overrides inputs
    rcases hval : d.validate (getUpstreamNodes d.graph finalVars inputs).2
        inputs with e | u
    · simp [rawExecuteTraced, hval]
    · simp [rawExecuteTraced, hval]

/-- Witness for the amended C8 at the concrete cyclic driver. -/
theorem has_cycles_explicit_check_witness :
    ((exDriverPQ.hasCyclesAt ["P"] = true ↔
      CyclicOn exDriverPQ.graph (upstreamClosure exDriverPQ.graph ["P"])) ∧
    (∀ overrides inputs,
      rawExecuteTraced exDriverPQ ["P"] overrides inputs false =
        match exDriverPQ.validate
            (getUpstreamNodes exDriverPQ.graph ["P"] inputs).2 inputs with
        | Except.error e => (Except.error e, [])
        | Except.ok _ => rawExecuteCore exDriverPQ ["P"]
            (getUpstreamNodes exDriverPQ.graph ["P"] inputs).1 overrides
            inputs)) :=
  has_cycles_explicit_check exDriverPQ ["P"]

end Hamilton
